import Mathlib

/-!
# The constant database writer `cdbw.c`

A shallow embedding of the NetBSD constant database writer: the record and
key stores, the hypergraph peeling of `build_graph`, the assignment pass of
`assign_nodes`, and the serializer `print_hash`, with the properties of the
specification stated over these definitions.

Conventions of the embedding.
* `uint32_t` values are natural numbers, every arithmetic operation that can
  wrap is reduced modulo `U32`.
* C arrays are lists, an access outside the list is undefined behaviour and
  makes the embedded function return `none`.
* The hash primitive `mi_vector_hash` is declared but not defined in the
  source file, it is a parameter `H` of every function that calls it.
-/

namespace Cdbw

/-! ## Machine arithmetic -/

/-- The modulus of `uint32_t` arithmetic. -/
def U32 : Nat := 4294967296

/-- The modulus of `size_t` arithmetic (an LP64 platform). -/
def SIZE : Nat := 18446744073709551616

/-- Addition of two `uint32_t` values. -/
def u32add (a b : Nat) : Nat := (a + b) % U32

/-- Subtraction of two `uint32_t` values, wrapping below zero. -/
def u32sub (a b : Nat) : Nat := (a + (U32 - b % U32)) % U32

/-- Multiplication of two `uint32_t` values. -/
def u32mul (a b : Nat) : Nat := (a * b) % U32

/-- The constant `max_data_counter` of the source. -/
def max_data_counter : Nat := 0xcccccccc

/-- The size of the stack buffer of `print_hash`, `sizeof(buf)`. -/
def BUFSZ : Nat := 90000

/-! ## The hash primitive -/

/-- The type of the external hash primitive: key bytes and seed to three words. -/
abbrev hash_fn := List Nat → Nat → Nat × Nat × Nat

/-- The call `mi_vector_hash(key, keylen, seed, hashes)`: the three words the
primitive `H` stores into the `uint32_t hashes[3]` array. -/
def mi_vector_hash (H : hash_fn) (key : List Nat) (seed : Nat) : Nat × Nat × Nat :=
  ((H key seed).1 % U32, (H key seed).2.1 % U32, (H key seed).2.2 % U32)

/-! ## The record store and the key store -/

/-- The C `struct key_hash` without its list link. -/
structure key_hash where
  hashes : Nat × Nat × Nat
  idx : Nat
  key : List Nat
  keylen : Nat
deriving DecidableEq, Repr

/-- The C `struct cdbw`: `data_ptr` and `data_len` are the two allocated
arrays, `hash` is the array of `hash_size` bucket chains. -/
structure cdbw where
  data_counter : Nat
  data_allocated : Nat
  data_size : Nat
  data_len : List Nat
  data_ptr : List (List Nat)
  hash_size : Nat
  hash : List (List key_hash)
  key_counter : Nat
deriving DecidableEq, Repr

/-- The builder `cdbw_open` returns: zeroed by `calloc`, with 1024 empty chains. -/
def cdbw_empty : cdbw :=
  { data_counter := 0, data_allocated := 0, data_size := 0,
    data_len := [], data_ptr := [],
    hash_size := 1024, hash := List.replicate 1024 [], key_counter := 0 }

/-- The function `cdbw_open`, the two booleans say whether each `calloc`
succeeds, `none` is the `NULL` result. -/
def cdbw_open (ok_cdbw ok_hash : Bool) : Option cdbw :=
  if !ok_cdbw then none
  else if !ok_hash then none
  else some cdbw_empty

/-- The effect of `realloc(p, n * sizeof *p)` on an array seen as a list: the
first `n` elements are kept, new elements hold the filler `d`. -/
def realloc {α : Type} (l : List α) (n : Nat) (d : α) : List α :=
  l.take n ++ List.replicate (n - l.length) d

/-- The growth step of `cdbw_put_data`, taken when `data_allocated` equals
`data_counter`: the flag is false when the function returns -1 there. A failure
of the second `realloc` leaves the already grown `data_ptr` in place. -/
def grow_arrays (c : cdbw) (ok_ptr ok_len : Bool) : Bool × cdbw :=
  if c.data_allocated = c.data_counter then
    let new_allocated := if c.data_allocated = 0 then 256 else (c.data_allocated * 2) % SIZE
    if !ok_ptr then (false, c)
    else
      let c1 := { c with data_ptr := realloc c.data_ptr new_allocated [] }
      if !ok_len then (false, c1)
      else (true, { c1 with data_len := realloc c1.data_len new_allocated 0,
                            data_allocated := new_allocated })
  else (true, c)

/-- The statements of `cdbw_put_data` after the `malloc`: the record is copied
into the slot `data_counter`, its length is stored, `data_size` grows and
`data_counter` is incremented. -/
def store_record (c : cdbw) (data : List Nat) : cdbw :=
  { c with data_ptr := c.data_ptr.set c.data_counter data,
           data_len := c.data_len.set c.data_counter data.length,
           data_size := (c.data_size + data.length) % SIZE,
           data_counter := c.data_counter + 1 }

/-- The function `cdbw_put_data`. The booleans say whether the two `realloc`
calls and the `malloc` succeed. The result is the return value, the builder
after the call and the value stored through `idx` (0 when nothing is stored). -/
def cdbw_put_data (c : cdbw) (data : List Nat) (ok_ptr ok_len ok_data : Bool) :
    Int × cdbw × Nat :=
  if c.data_counter = max_data_counter then (-1, c, 0)
  else if (c.data_size + data.length) % SIZE < c.data_size ∨
      (c.data_size + data.length) % SIZE > 0xffffffff then (-1, c, 0)
  else
    let r := grow_arrays c ok_ptr ok_len
    if !r.1 then (-1, r.2, 0)
    else if !ok_data then (-1, r.2, 0)
    else (0, store_record r.2 data, r.2.data_counter % U32)

/-- The later builder has the key store and the first `data_counter` records
of the earlier one. -/
def keeps_store (c c' : cdbw) : Prop :=
  c'.hash = c.hash ∧ c'.hash_size = c.hash_size ∧ c'.key_counter = c.key_counter ∧
  ∀ i, i < c.data_counter →
    c'.data_ptr[i]? = c.data_ptr[i]? ∧ c'.data_len[i]? = c.data_len[i]?

/-- The duplicate test of the `SLIST_FOREACH` loop in `cdbw_put_key`: length,
the three cached hashes, then `memcmp` over `keylen` bytes. -/
def key_matches (k : key_hash) (key : List Nat) (hashes : Nat × Nat × Nat) : Bool :=
  if k.keylen ≠ key.length then false
  else if k.hashes.1 ≠ hashes.1 then false
  else if k.hashes.2.1 ≠ hashes.2.1 then false
  else if k.hashes.2.2 ≠ hashes.2.2 then false
  else if key.take key.length ≠ k.key.take key.length then false
  else true

/-- One iteration of the inner `while` loop of the rehash: the chain head is
moved to the head of its chain in the new table. -/
def rehash_move (new_hash_size : Nat) (new_head : List (List key_hash)) (k : key_hash) :
    List (List key_hash) :=
  let b := k.hashes.1 &&& (new_hash_size - 1)
  new_head.set b (k :: new_head.getD b [])

/-- The rehash loops of `cdbw_put_key`: every chain of the old table is emptied
from its head into the new table. -/
def rehash (old : List (List key_hash)) (new_hash_size : Nat) : List (List key_hash) :=
  old.foldl (fun nh chain => chain.foldl (rehash_move new_hash_size) nh)
    (List.replicate new_hash_size [])

/-- The node `cdbw_put_key` allocates and fills for a key. -/
def key_node (H : hash_fn) (key : List Nat) (idx : Nat) : key_hash :=
  { hashes := mi_vector_hash H key 0, idx := idx, key := key, keylen := key.length }

/-- The statements `SLIST_INSERT_HEAD(head, key_hash, link); ++cdbw->key_counter;`
for the chain the first hash of the node selects. -/
def insert_node (c : cdbw) (node : key_hash) : cdbw :=
  { c with hash := c.hash.set (node.hashes.1 &&& (c.hash_size - 1))
                     (node :: c.hash.getD (node.hashes.1 &&& (c.hash_size - 1)) []),
           key_counter := c.key_counter + 1 }

/-- The end of `cdbw_put_key` when the bigger table is allocated: the nodes are
moved and the table of twice the size replaces the old one. -/
def grow_table (c : cdbw) : cdbw :=
  { c with hash := rehash c.hash ((c.hash_size * 2) % SIZE),
           hash_size := (c.hash_size * 2) % SIZE }

/-- The function `cdbw_put_key`. The booleans say whether the node `malloc`,
the key `malloc` and the `calloc` of the bigger table succeed. -/
def cdbw_put_key (H : hash_fn) (c : cdbw) (key : List Nat) (idx : Nat)
    (ok_node ok_key ok_rehash : Bool) : Int × cdbw :=
  if idx ≥ c.data_counter ∨ c.key_counter = max_data_counter then (-1, c)
  else
    let hashes := mi_vector_hash H key 0
    let b := hashes.1 &&& (c.hash_size - 1)
    if (c.hash.getD b []).any (fun k => key_matches k key hashes) then (-1, c)
    else if !ok_node then (-1, c)
    else if !ok_key then (-1, c)
    else
      let c1 := insert_node c (key_node H key idx)
      if c1.key_counter ≤ c1.hash_size then (0, c1)
      else if !ok_rehash then (0, c1)
      else (0, grow_table c1)

/-- The function `cdbw_put`: `cdbw_put_data`, then `cdbw_put_key`, and the
removal of the new record when the key step fails. -/
def cdbw_put (H : hash_fn) (c : cdbw) (key data : List Nat)
    (ok_ptr ok_len ok_data ok_node ok_key ok_rehash : Bool) : Int × cdbw :=
  let r := cdbw_put_data c data ok_ptr ok_len ok_data
  if r.1 ≠ 0 then (r.1, r.2.1)
  else
    let k := cdbw_put_key H r.2.1 key r.2.2 ok_node ok_key ok_rehash
    if k.1 ≠ 0 then
      (k.1, { k.2 with data_counter := (k.2.data_counter + (SIZE - 1)) % SIZE,
                       data_size := (k.2.data_size + (SIZE - data.length % SIZE)) % SIZE })
    else (0, k.2)

/-- The resident keys in the order `build_graph` and `cdbw_close` walk them:
bucket by bucket, each chain from its head. -/
def resident (c : cdbw) : List key_hash :=
  ((List.range c.hash_size).map (fun i => c.hash.getD i [])).flatten

/-! ## Reachable builders and their invariant -/

/-- The builders reachable from `cdbw_open` through `cdbw_put_data`,
`cdbw_put_key` and `cdbw_put`, whatever the calls return and whichever
allocations fail. A data length is a `size_t`. -/
inductive Reachable (H : hash_fn) : cdbw → Prop where
  | opened : Reachable H cdbw_empty
  | put_data (c : cdbw) (data : List Nat) (ok_ptr ok_len ok_data : Bool) :
      Reachable H c → data.length < SIZE →
      Reachable H (cdbw_put_data c data ok_ptr ok_len ok_data).2.1
  | put_key (c : cdbw) (key : List Nat) (idx : Nat) (ok_node ok_key ok_rehash : Bool) :
      Reachable H c →
      Reachable H (cdbw_put_key H c key idx ok_node ok_key ok_rehash).2
  | put (c : cdbw) (key data : List Nat)
      (ok_ptr ok_len ok_data ok_node ok_key ok_rehash : Bool) :
      Reachable H c → data.length < SIZE →
      Reachable H (cdbw_put H c key data ok_ptr ok_len ok_data ok_node ok_key ok_rehash).2

/-- The key node is what `cdbw_put_key` stores for its key: the cached hashes
are those of seed 0, the length is that of the key, the chain `b` is the one
the first hash selects, and the record index is below `data_counter`. -/
def node_ok (H : hash_fn) (hash_size data_counter b : Nat) (k : key_hash) : Prop :=
  k.hashes = mi_vector_hash H k.key 0 ∧ k.keylen = k.key.length ∧
  k.hashes.1 &&& (hash_size - 1) = b ∧ k.idx < data_counter

/-- The invariant of the record store and the key store. -/
structure cdbw_inv (H : hash_fn) (c : cdbw) : Prop where
  counter_le : c.data_counter ≤ max_data_counter
  keys_le : c.key_counter ≤ max_data_counter
  size_le : c.data_size ≤ 0xffffffff
  alloc_ge : c.data_counter ≤ c.data_allocated
  alloc_le : c.data_allocated ≤ 2 * max_data_counter
  len_length : c.data_len.length = c.data_allocated
  ptr_length : c.data_allocated ≤ c.data_ptr.length
  size_eq : c.data_size = (c.data_len.take c.data_counter).sum
  rec_len : ∀ i, i < c.data_counter → (c.data_ptr.getD i []).length = c.data_len.getD i 0
  hash_length : c.hash.length = c.hash_size
  hash_pos : 0 < c.hash_size
  key_count : c.key_counter = c.hash.flatten.length
  nodes : ∀ b chain, c.hash[b]? = some chain → ∀ k ∈ chain, node_ok H c.hash_size c.data_counter b k
  keys_nodup : (c.hash.flatten.map (fun k => k.key)).Nodup
  hash_size_le : c.hash_size ≤ 2 * max_data_counter

/-- The record fields of both builders are the same. -/
def same_records (c c' : cdbw) : Prop :=
  c'.data_counter = c.data_counter ∧ c'.data_allocated = c.data_allocated ∧
  c'.data_size = c.data_size ∧ c'.data_len = c.data_len ∧ c'.data_ptr = c.data_ptr

/-- The properties of a key node that do not depend on the table. -/
def node_base (H : hash_fn) (dc : Nat) (k : key_hash) : Prop :=
  k.hashes = mi_vector_hash H k.key 0 ∧ k.keylen = k.key.length ∧ k.idx < dc

/-- Every chain of the table of `n` chains holds only nodes that belong there. -/
def table_ok (H : hash_fn) (n dc : Nat) (T : List (List key_hash)) : Prop :=
  T.length = n ∧ ∀ b chain, T[b]? = some chain → ∀ k ∈ chain, node_ok H n dc b k

/-! ## The hypergraph state -/

/-- The C `struct oedge`, `verts0` and `verts1` are `verts[0]` and `verts[1]`. -/
structure oedge where
  degree : Nat
  verts0 : Nat
  verts1 : Nat
  edge : Nat
deriving DecidableEq, Repr

/-- The C `struct edge`. -/
structure edge where
  idx : Nat
  left : Nat
  middle : Nat
  right : Nat
deriving DecidableEq, Repr

/-- The C `struct state`, every array is the list of its allocated elements. -/
structure state where
  data_entries : Nat
  entries : Nat
  keys : Nat
  seed : Nat
  g : List Nat
  visited : List Bool
  oedges : List oedge
  edges : List edge
  output_index : Nat
  output_order : List Nat
deriving DecidableEq, Repr

/-- The function `add_remove_edge`, `delta` is the `int` argument converted to
`uint32_t` (1, or `U32 - 1` for -1). -/
def add_remove_edge (o : List oedge) (delta e v0 v1 v2 : Nat) : Option (List oedge) :=
  match o[v0]? with
  | none => none
  | some x =>
    let x1 : oedge :=
      if v1 < v2 then { x with verts0 := x.verts0 ^^^ v1 } else { x with verts1 := x.verts1 ^^^ v1 }
    let x2 : oedge :=
      if v1 < v2 then { x1 with verts1 := x1.verts1 ^^^ v2 } else { x1 with verts0 := x1.verts0 ^^^ v2 }
    some (o.set v0 { x2 with degree := u32add x2.degree delta, edge := x2.edge ^^^ e })

/-- The function `add_edge`. -/
def add_edge (o : List oedge) (e v0 v1 v2 : Nat) : Option (List oedge) :=
  add_remove_edge o 1 e v0 v1 v2

/-- The function `remove_vertex`. -/
def remove_vertex (s : state) (v0 : Nat) : Option state :=
  match s.oedges[v0]? with
  | none => none
  | some x =>
    if x.degree = 1 then
      let e := x.edge
      let v1 := x.verts0
      let v2 := x.verts1
      let o0 := s.oedges.set v0 { x with degree := 0 }
      match add_remove_edge o0 (U32 - 1) e v1 v0 v2 with
      | none => none
      | some o1 =>
        match add_remove_edge o1 (U32 - 1) e v2 v0 v1 with
        | none => none
        | some o2 =>
          let oi := u32sub s.output_index 1
          if oi < s.output_order.length then
            some { s with oedges := o2, output_index := oi,
                          output_order := s.output_order.set oi e }
          else none
    else some s

/-- A run of `remove_vertex` calls, one for each vertex of the list in turn. -/
def remove_vertices (s : state) : List Nat → Option state
  | [] => some s
  | v :: vs =>
    match remove_vertex s v with
    | none => none
    | some s1 => remove_vertices s1 vs

/-- The edge `build_graph` stores for the key `k`: its record index and the
three hash words of `mi_vector_hash(key, keylen, seed, hashes)` modulo `entries`. -/
def key_edge (H : hash_fn) (seed entries : Nat) (k : key_hash) : edge :=
  let hashes := mi_vector_hash H (k.key.take k.keylen) seed
  { idx := k.idx, left := hashes.1 % entries, middle := hashes.2.1 % entries,
    right := hashes.2.2 % entries }

/-- The body of the key loop of `build_graph` for the key `k`, whose edge is
stored at position `j` (the pointer `e`). The flag is false when the loop
returns -1. -/
def add_key (H : hash_fn) (s : state) (k : key_hash) (j : Nat) : Option (Bool × state) :=
  if s.edges.length ≤ j then none
  else if s.entries = 0 then none
  else
    let e : edge := key_edge H s.seed s.entries k
    let s1 := { s with edges := s.edges.set j e }
    if e.left = e.middle then some (false, s1)
    else
      match add_edge s1.oedges (j % U32) e.right e.left e.middle with
      | none => none
      | some o1 =>
        if e.left = e.right then some (false, { s1 with oedges := o1 })
        else
          match add_edge o1 (j % U32) e.middle e.left e.right with
          | none => none
          | some o2 =>
            if e.middle = e.right then some (false, { s1 with oedges := o2 })
            else
              match add_edge o2 (j % U32) e.left e.middle e.right with
              | none => none
              | some o3 => some (true, { s1 with oedges := o3 })

/-- The key loop of `build_graph` over the resident keys, `j` is the position
of the pointer `e`. -/
def add_keys (H : hash_fn) (s : state) : List key_hash → Nat → Option (Bool × state)
  | [], _ => some (true, s)
  | k :: ks, j =>
    match add_key H s k j with
    | none => none
    | some (false, s1) => some (false, s1)
    | some (true, s1) => add_keys H s1 ks (j + 1)

/-- The cascade loop of `build_graph`, `i` is the loop variable before the test. -/
def cascade : Nat → state → Option state
  | 0, s => some s
  | i + 1, s =>
    if i + 1 > s.output_index then
      match s.output_order[i]? with
      | none => none
      | some j =>
        match s.edges[j]? with
        | none => none
        | some e =>
          match remove_vertices s [e.left, e.middle, e.right] with
          | none => none
          | some s1 => cascade i s1
    else some s

/-- The all-zero `struct oedge` that `memset` leaves. -/
def oedge_zero : oedge := { degree := 0, verts0 := 0, verts1 := 0, edge := 0 }

/-- The state after `memset(state->oedges, 0, sizeof(struct oedge) * state->entries)`. -/
def memset_oedges (s : state) : state :=
  { s with oedges := List.replicate s.entries oedge_zero ++ s.oedges.drop s.entries }

/-- The function `build_graph`, the result is the return value and the state
after the call. -/
def build_graph (H : hash_fn) (c : cdbw) (s : state) : Option (Int × state) :=
  if s.oedges.length < s.entries then none
  else
    match add_keys H (memset_oedges s) (resident c) 0 with
    | none => none
    | some (false, s1) => some (-1, s1)
    | some (true, s1) =>
      let s2 := { s1 with output_index := s1.keys }
      match remove_vertices s2 (List.range s2.entries) with
      | none => none
      | some s3 =>
        match cascade s3.keys s3 with
        | none => none
        | some s4 => some (if s4.output_index = 0 then 0 else -1, s4)

/-- The value `assign_nodes` stores: `(2 * data_entries + idx - a - b) % data_entries`
evaluated left to right in `uint32_t` arithmetic. -/
def assign_value (data_entries idx a b : Nat) : Nat :=
  u32sub (u32sub (u32add (u32mul 2 data_entries) idx) a) b % data_entries

/-- The body of the loop of `assign_nodes` once the pointer `e` is set. -/
def assign_edge (s : state) (e : edge) : Option state :=
  match s.visited[e.left]?, s.visited[e.middle]?, s.visited[e.right]?,
      s.g[e.left]?, s.g[e.middle]?, s.g[e.right]? with
  | some vl, some vm, some _, some gl, some gm, some gr =>
    if s.data_entries = 0 then none
    else
      let g1 :=
        if !vl then s.g.set e.left (assign_value s.data_entries e.idx gm gr)
        else if !vm then s.g.set e.middle (assign_value s.data_entries e.idx gl gr)
        else s.g.set e.right (assign_value s.data_entries e.idx gl gm)
      some { s with g := g1,
                    visited := ((s.visited.set e.left true).set e.middle true).set e.right true }
  | _, _, _, _, _, _ => none

/-- The body of the loop of `assign_nodes` for position `i` of `output_order`. -/
def assign_step (s : state) (i : Nat) : Option state :=
  match s.output_order[i]? with
  | none => none
  | some j =>
    match s.edges[j]? with
    | none => none
    | some e => assign_edge s e

/-- The loop of `assign_nodes` over a list of positions. -/
def assign_loop (s : state) : List Nat → Option state
  | [] => some s
  | i :: is =>
    match assign_step s i with
    | none => none
    | some s1 => assign_loop s1 is

/-- The function `assign_nodes`. -/
def assign_nodes (s : state) : Option state :=
  assign_loop s (List.range s.keys)

/-! ## The hypergraph behind the arrays -/

/-- The vertex `v` is an endpoint of the edge `e`. -/
def incident (e : edge) (v : Nat) : Bool :=
  decide (e.left = v) || (decide (e.middle = v) || decide (e.right = v))

/-- The edge has three different endpoints below `n`. -/
def valid_edge (n : Nat) (e : edge) : Prop :=
  e.left < n ∧ e.middle < n ∧ e.right < n ∧
    e.left ≠ e.middle ∧ e.left ≠ e.right ∧ e.middle ≠ e.right

instance (n : Nat) (e : edge) : Decidable (valid_edge n e) := by
  unfold valid_edge; infer_instance

/-- The smaller of the two endpoints of `e` other than `v`. -/
def other0 (e : edge) (v : Nat) : Nat :=
  if e.left = v then (if e.middle < e.right then e.middle else e.right)
  else if e.middle = v then (if e.left < e.right then e.left else e.right)
  else (if e.left < e.middle then e.left else e.middle)

/-- The larger of the two endpoints of `e` other than `v`. -/
def other1 (e : edge) (v : Nat) : Nat :=
  if e.left = v then (if e.middle < e.right then e.right else e.middle)
  else if e.middle = v then (if e.left < e.right then e.right else e.left)
  else (if e.left < e.middle then e.middle else e.left)

/-- The accumulator of the vertex `v` after the edge `p.2` with index `p.1` is
mixed in: nothing changes unless `v` is an endpoint. -/
def oadd (v : Nat) (p : Nat × edge) (x : oedge) : oedge :=
  if incident p.2 v then
    { degree := x.degree + 1, verts0 := x.verts0 ^^^ other0 p.2 v,
      verts1 := x.verts1 ^^^ other1 p.2 v, edge := x.edge ^^^ p.1 }
  else x

/-- The accumulator of the vertex `v` over a list of indexed edges: the number
of incident edges and the three XOR sums. -/
def oacc (v : Nat) (A : List (Nat × edge)) : oedge :=
  A.foldr (oadd v) oedge_zero

/-- The number of edges of `A` incident to `v`. -/
def degree_in (A : List (Nat × edge)) (v : Nat) : Nat :=
  (A.filter (fun p => incident p.2 v)).length

/-- The not yet peeled edges of a state, with their indices. -/
def alive (s : state) : List (Nat × edge) :=
  s.edges.enum.filter (fun p => decide (p.1 ∉ s.output_order.drop s.output_index))

/-- The indexed edges of `A` other than `p`. -/
def remove_edge (p : Nat × edge) (A : List (Nat × edge)) : List (Nat × edge) :=
  A.filter (fun q => decide (q ≠ p))

/-- The peeling of a hypergraph without arrays: the edges still present and
the edges removed so far, the last removed first. -/
abbrev astate := List (Nat × edge) × List (Nat × edge)

/-- The abstract counterpart of `remove_vertex`: a vertex with exactly one
incident edge loses it. -/
def aremove (st : astate) (v : Nat) : astate :=
  match st.1.filter (fun p => incident p.2 v) with
  | [p] => (remove_edge p st.1, p :: st.2)
  | _ => st

/-- The abstract counterpart of `remove_vertices`. -/
def aremoves (st : astate) : List Nat → astate
  | [] => st
  | v :: vs => aremoves (aremove st v) vs

/-- The abstract counterpart of `cascade`: position `i` of `output_order` is
position `i - output_index` of the removed edges. -/
def acascade : Nat → astate → astate
  | 0, st => st
  | i + 1, st =>
    if i + 1 > st.1.length then
      match st.2[i - st.1.length]? with
      | none => st
      | some p => acascade i (aremoves st [p.2.left, p.2.middle, p.2.right])
    else st

/-- The abstract counterpart of the peel of `build_graph` on the indexed edges
`A` with `n` vertices. -/
def apeel (n : Nat) (A : List (Nat × edge)) : astate :=
  acascade A.length (aremoves (A, []) (List.range n))

/-- Every removed edge had, when it was removed, an endpoint on no other edge
still present: `A` are the edges present now, the list the removed ones. -/
def peel_ok (A : List (Nat × edge)) : List (Nat × edge) → Prop
  | [] => True
  | p :: rest => (∃ v, incident p.2 v = true ∧ ∀ q ∈ A, incident q.2 v = false) ∧ peel_ok (p :: A) rest

/-- The hypergraph can be peeled: repeatedly removing an edge that is the only
one at some vertex removes every edge. -/
inductive Peels : List (Nat × edge) → Prop where
  | nil : Peels []
  | step (A : List (Nat × edge)) (p : Nat × edge) (v : Nat) :
      p ∈ A → incident p.2 v = true → (∀ q ∈ A, incident q.2 v = true → q = p) →
      Peels (remove_edge p A) → Peels A

/-! ## Invariants of the peeling -/

/-- The accumulator invariant of the peel: every vertex below `n` holds the
number of edges of `A` at it, and, when that number is not zero, their three
XOR sums. -/
def xor_inv (n : Nat) (o : List oedge) (A : List (Nat × edge)) : Prop :=
  ∀ v, v < n → ∃ x, o[v]? = some x ∧ x.degree = degree_in A v ∧ (x.degree ≠ 0 → x = oacc v A)

/-- The accumulator invariant while edges are registered: every vertex below
`n` holds exactly the accumulator of `A`. -/
def full_inv (n : Nat) (o : List oedge) (A : List (Nat × edge)) : Prop :=
  o.length = n ∧ ∀ v, v < n → o[v]? = some (oacc v A)

/-- The arrays of the state `s` represent the abstract peeling state `st` of the
hypergraph with edge list `E` and `n` vertices. -/
structure Rel (E : List edge) (n : Nat) (s : state) (st : astate) : Prop where
  edges : s.edges = E
  entries : s.entries = n
  keys : s.keys = E.length
  olen : s.oedges.length = n
  ordlen : s.output_order.length = E.length
  oi : s.output_index = st.1.length
  out : s.output_order.drop s.output_index = st.2.map Prod.fst
  x : xor_inv n s.oedges st.1

/-- The abstract peeling state holds every edge of `E` once, present or
removed, all edges are valid and their number fits a `uint32_t`. -/
structure AInv (E : List edge) (n : Nat) (st : astate) : Prop where
  mem : ∀ p ∈ st.1 ++ st.2, E[p.1]? = some p.2
  nodup : ((st.1 ++ st.2).map Prod.fst).Nodup
  len : st.1.length + st.2.length = E.length
  valid : ∀ e ∈ E, valid_edge n e
  bound : E.length < U32

/-- The fields the peel never touches are the same in both states. -/
def frame (s s' : state) : Prop :=
  s'.g = s.g ∧ s'.visited = s.visited ∧ s'.data_entries = s.data_entries ∧ s'.seed = s.seed

/-- The scalar fields, `g`, `visited` and the sizes of the scratch arrays are
the same in both states. -/
def same_shape (s s' : state) : Prop :=
  s'.entries = s.entries ∧ s'.keys = s.keys ∧ s'.seed = s.seed ∧
  s'.data_entries = s.data_entries ∧ s'.g = s.g ∧ s'.visited = s.visited ∧
  s'.oedges.length = s.oedges.length ∧ s'.edges.length = s.edges.length ∧
  s'.output_order.length = s.output_order.length

/-- The scratch arrays of `s` have the sizes `cdbw_output` allocates for the
builder `c`. -/
def scratch_ok (c : cdbw) (s : state) : Prop :=
  s.keys = (resident c).length ∧ s.keys < U32 ∧ 0 < s.entries ∧
  s.oedges.length = s.entries ∧ s.edges.length = s.keys ∧ s.output_order.length = s.keys

/-- The edges of the resident keys for a seed and a table size, in the order
`build_graph` stores them. -/
def graph_edges (H : hash_fn) (c : cdbw) (seed entries : Nat) : List edge :=
  (resident c).map (key_edge H seed entries)

/-- The pending work of the peel covers every vertex of degree one: it is in
the list `P` of vertices still to visit, or on a removed edge the cascade has
not processed yet (the removed edges before position `i` of `output_order`). -/
def Winv (i : Nat) (P : List Nat) (st : astate) : Prop :=
  ∀ v, degree_in st.1 v = 1 →
    v ∈ P ∨ ∃ q ∈ st.2.take (i - st.1.length), incident q.2 v = true

/-- The attempt with this seed succeeds: every key has three different
vertices and the peel of the hypergraph removes every edge. -/
def attempt_ok (H : hash_fn) (c : cdbw) (seed entries : Nat) : Prop :=
  (∀ e ∈ graph_edges H c seed entries, valid_edge entries e) ∧
  (apeel entries (graph_edges H c seed entries).enum).1.length = 0

/-! ## The assignment seen abstractly -/

/-- Some edge of the list has the endpoint `v`. -/
def covered (done : List edge) (v : Nat) : Bool := done.any (fun e => incident e v)

/-- The loop of `assign_nodes` over the edges themselves. -/
def assign_edges (s : state) : List edge → Option state
  | [] => some s
  | e :: es =>
    match assign_edge s e with
    | none => none
    | some s1 => assign_edges s1 es

/-- The `visited` array marks exactly the endpoints of the edges processed. -/
def vis_inv (n : Nat) (s : state) (done : List edge) : Prop :=
  s.g.length = n ∧ s.visited.length = n ∧ ∀ v, v < n → s.visited[v]? = some (covered done v)

/-- Every entry of `g` is below `data_entries` and every processed edge sums to
its record index. -/
def g_inv (s : state) (done : List edge) : Prop :=
  (∀ (v x : Nat), s.g[v]? = some x → x < s.data_entries) ∧
  ∀ e ∈ done, (s.g.getD e.left 0 + s.g.getD e.middle 0 + s.g.getD e.right 0) % s.data_entries
    = e.idx

/-- The vertex `assign_nodes` writes for the edge `e`: the first of left,
middle, right that is not visited, right when both others are. -/
def assign_target (s : state) (e : edge) : Nat :=
  if s.visited.getD e.left false = false then e.left
  else if s.visited.getD e.middle false = false then e.middle
  else e.right

/-- The fields `assign_nodes` never touches are the same in both states. -/
def assign_frame (s s' : state) : Prop :=
  s'.data_entries = s.data_entries ∧ s'.entries = s.entries ∧ s'.keys = s.keys ∧
  s'.seed = s.seed ∧ s'.edges = s.edges ∧ s'.output_order = s.output_order ∧
  s'.output_index = s.output_index ∧ s'.oedges = s.oedges

/-- Each edge of the list has an endpoint on no edge before it in the list nor
on an edge of `done`. -/
def order_ok (done : List edge) : List edge → Prop
  | [] => True
  | e :: es => (∃ v, incident e v = true ∧ covered done v = false) ∧ order_ok (e :: done) es

/-! ## The serializer -/

/-- The function `compute_size`. -/
def compute_size (size : Nat) : Nat :=
  if size < 0x100 then 1 else if size < 0x10000 then 2 else 4

/-- The four bytes `le32enc` stores for the `uint32_t` value `x`. -/
def le32enc (x : Nat) : List Nat :=
  [x % 256, x / 256 % 256, x / 65536 % 256, x / 16777216 % 256]

/-- A store of the bytes `bytes` into the array `buf` from position `pos`
(`memcpy(buf + pos, bytes, len)`). -/
def buf_write (buf : List Nat) (pos : Nat) (bytes : List Nat) : List Nat :=
  buf.take pos ++ bytes ++ buf.drop (pos + bytes.length)

/-- The sink behind the file descriptor: the return value of `write` given the
number of earlier `write` calls and the bytes passed. -/
abbrev sink_t := Nat → List Nat → Int

/-- The local state of `print_hash`: the buffer, `cur_pos`, and the chunks
passed to `write` so far. -/
structure wstate where
  buf : List Nat
  cur_pos : Nat
  log : List (List Nat)
deriving DecidableEq, Repr

/-- A call `ret = write(fd, bytes, len)` followed by the test
`ret == -1 || (size_t)ret != len`; `none` stands for the `return -1`. -/
def write_fd (sink : sink_t) (w : wstate) (bytes : List Nat) : Option wstate :=
  let ret := sink w.log.length bytes
  if ret = -1 ∨ ret ≠ (bytes.length : Int) then none
  else some { w with log := w.log ++ [bytes] }

/-- The body of the loop-free `COND_FLUSH_BUFFER(n)`, `none` is its `return -1`. -/
def cond_flush_buffer (sink : sink_t) (n : Nat) (w : wstate) : Option wstate :=
  if w.cur_pos + n ≥ BUFSZ then
    match write_fd sink w (w.buf.take w.cur_pos) with
    | none => none
    | some w1 => some { w1 with cur_pos := 0 }
  else some w

/-- The three statements `COND_FLUSH_BUFFER(4); le32enc(buf + cur_pos, x);
cur_pos += size;`. -/
def put_field (sink : sink_t) (size : Nat) (w : wstate) (x : Nat) : Option wstate :=
  match cond_flush_buffer sink 4 w with
  | none => none
  | some w1 =>
    some { w1 with buf := buf_write w1.buf w1.cur_pos (le32enc (x % U32)),
                   cur_pos := w1.cur_pos + size }

/-- The loop that stores the `g` fields, over the list of values read. -/
def put_fields (sink : sink_t) (size : Nat) (w : wstate) : List Nat → Option wstate
  | [] => some w
  | x :: xs =>
    match put_field sink size w x with
    | none => none
    | some w1 => put_fields sink size w1 xs

/-- The offset loop of `print_hash` and the final offset after it: `data_size`
is the running `uint32_t` sum, `lens` the lengths still to be added. -/
def put_offsets (sink : sink_t) (size2 : Nat) (w : wstate) (data_size : Nat) :
    List Nat → Option wstate
  | [] => put_field sink size2 w data_size
  | len :: lens =>
    match put_field sink size2 w data_size with
    | none => none
    | some w1 => put_offsets sink size2 w1 ((data_size + len) % U32) lens

/-- The body of the value loop of `print_hash` for one record. -/
def put_value (sink : sink_t) (w : wstate) (rec : Nat × List Nat) : Option wstate :=
  match cond_flush_buffer sink rec.1 w with
  | none => none
  | some w1 =>
    if rec.1 < BUFSZ then
      some { w1 with buf := buf_write w1.buf w1.cur_pos (rec.2.take rec.1),
                     cur_pos := w1.cur_pos + rec.1 }
    else write_fd sink w1 (rec.2.take rec.1)

/-- The value loop of `print_hash` over the records (length, bytes). -/
def put_values (sink : sink_t) (w : wstate) : List (Nat × List Nat) → Option wstate
  | [] => some w
  | r :: rs =>
    match put_value sink w r with
    | none => none
    | some w1 => put_values sink w1 rs

/-- The sixteen bytes `strncpy(dst, descr, 16)` stores: the bytes of `descr`
before its first NUL, at most sixteen, then NUL bytes. -/
def strncpy16 (descr : List Nat) : List Nat :=
  let body := (descr.take 16).takeWhile (fun b => b ≠ 0)
  body ++ List.replicate (16 - body.length) 0

/-- The magic string of seven bytes. -/
def magic : List Nat := [78, 66, 67, 68, 66, 10, 0]

/-- The records `print_hash` reads, `data_len[i]` and `data_ptr[i]` for every
`i` below `data_counter`. -/
def records (c : cdbw) : List (Nat × List Nat) :=
  (List.range c.data_counter).map (fun i => (c.data_len.getD i 0, c.data_ptr.getD i []))

/-- The buffer after the header statements of `print_hash`: the magic, the
version byte, `strncpy` of the description and the four `le32enc` calls. -/
def write_header (c : cdbw) (s : state) (descr : List Nat) (buf0 : List Nat) : List Nat :=
  let b1 := buf_write buf0 0 magic
  let b2 := buf_write b1 7 [1]
  let b3 := buf_write b2 8 (strncpy16 descr)
  let b4 := buf_write b3 24 (le32enc (c.data_size % U32))
  let b5 := buf_write b4 28 (le32enc (c.data_counter % U32))
  let b6 := buf_write b5 32 (le32enc (s.entries % U32))
  buf_write b6 36 (le32enc (s.seed % U32))

/-- The function `print_hash` on the uninitialised buffer `buf0`; `none` is the
return value -1, `some w` the return value 0 with the final local state. -/
def print_hash (c : cdbw) (s : state) (sink : sink_t) (descr : List Nat) (buf0 : List Nat) :
    Option wstate :=
  let w0 : wstate := { buf := write_header c s descr buf0, cur_pos := 40, log := [] }
  let size := compute_size s.entries
  match put_fields sink size w0 ((List.range s.entries).map (fun i => s.g.getD i 0)) with
  | none => none
  | some w1 =>
    let size2 := compute_size (c.data_size % U32)
    let pad := size * s.entries % size2
    let w2 : Option wstate := if pad ≠ 0 then put_field sink (size2 - pad) w1 0 else some w1
    match w2 with
    | none => none
    | some w3 =>
      match put_offsets sink size2 w3 0 ((records c).map Prod.fst) with
      | none => none
      | some w4 =>
        match put_values sink w4 (records c) with
        | none => none
        | some w5 => if w5.cur_pos ≠ 0 then write_fd sink w5 (w5.buf.take w5.cur_pos) else some w5

/-! ## Sample inputs -/

/-- A small stand-in for the hash primitive, to run the embedding on concrete
keys: three words computed from the byte sum, the length and the seed. -/
def sample_hash : hash_fn :=
  fun key seed => (key.sum + seed, key.sum * 3 + seed * 7 + 1, key.length + 5 * seed + 2)

/-- The builder after `cdbw_put(cdbw, "a", 1, "1", 1)` on a new builder. -/
def sample_builder : cdbw :=
  (cdbw_put sample_hash cdbw_empty [97] [49] true true true true true true).2

/-- A sink that accepts every write in full. -/
def sample_sink : sink_t := fun _ bytes => (bytes.length : Int)

/-- A sink on which every write fails. -/
def failing_sink : sink_t := fun _ _ => -1

/-! ## The file layout of the specification -/

/-- The first `size` bytes of the little-endian encoding of the `uint32_t`
value `x`: what a field of width `size` keeps of `le32enc`. -/
def field_bytes (size x : Nat) : List Nat := (le32enc (x % U32)).take size

/-- The value of a little-endian byte string. -/
def le_decode : List Nat → Nat
  | [] => 0
  | b :: bs => b + 256 * le_decode bs

/-- The bytes handed out so far: the chunks written, then the filled part of
the buffer. -/
def emitted (w : wstate) : List Nat := w.log.flatten ++ w.buf.take w.cur_pos

/-- Every `write` on the sink accepts all the bytes it is given. -/
def sink_ok (sink : sink_t) : Prop := ∀ n bytes, sink n bytes = (bytes.length : Int)

/-- The buffer has its declared size and `cur_pos` is inside it. -/
def wbuf_ok (w : wstate) : Prop := w.buf.length = BUFSZ ∧ w.cur_pos < BUFSZ

/-- The values of the offset table as `print_hash` computes them: the running
`uint32_t` sum before each record and after the last. -/
def offset_values (acc : Nat) : List Nat → List Nat
  | [] => [acc]
  | len :: lens => acc :: offset_values ((acc + len) % U32) lens

/-- The number of padding bytes of the specification: with `raw = entries * W_g`,
`W_o - raw mod W_o` when `raw mod W_o` is not zero, else none. -/
def pad_len (entries data_size : Nat) : Nat :=
  let raw := entries * compute_size entries
  let w_o := compute_size data_size
  if raw % w_o ≠ 0 then w_o - raw % w_o else 0

/-- The file of the specification: magic, version, description, the four
header words, the `g` fields of width `W_g`, the zero padding, the offsets of
width `W_o` (entry `i` is the sum of the first `i` lengths) and the values. -/
def file_layout (descr : List Nat) (data_size data_counter entries seed : Nat)
    (g : List Nat) (lens : List Nat) (vals : List (List Nat)) : List Nat :=
  magic ++ [1] ++ strncpy16 descr ++
  le32enc data_size ++ le32enc data_counter ++ le32enc entries ++ le32enc seed ++
  (g.map (field_bytes (compute_size entries))).flatten ++
  List.replicate (pad_len entries data_size) 0 ++
  (((List.range (lens.length + 1)).map (fun i => (lens.take i).sum)).map
    (field_bytes (compute_size data_size))).flatten ++
  vals.flatten

/-! ## The driver -/

/-- The `seedgen` argument after the `NULL` substitution: the function
`cdbw_stable_seeder` itself, or another function given by the values its
successive calls return. -/
inductive seedgen_t where
  | stable : seedgen_t
  | other (f : Nat → Nat) : seedgen_t

/-- The `do ... while (build_graph(cdbw, &state))` loop of `cdbw_output`, cut
off after `fuel` attempts; `calls` counts the calls of the seeder function.
The result is `none` when an attempt is undefined or the fuel runs out. -/
def seed_loop (H : hash_fn) (c : cdbw) (sg : seedgen_t) :
    Nat → state → Nat → Option (state × Nat)
  | 0, _, _ => none
  | fuel + 1, s, calls =>
    let s1 : state × Nat :=
      match sg with
      | seedgen_t.stable => ({ s with seed := u32add s.seed 1 }, calls)
      | seedgen_t.other f => ({ s with seed := f calls % U32 }, calls + 1)
    match build_graph H c s1.1 with
    | none => none
    | some (rv, s2) => if rv ≠ 0 then seed_loop H c sg fuel s2 s1.2 else some (s2, s1.2)

/-- The entries computation of `cdbw_output` in `uint32_t` arithmetic. -/
def compute_entries (keys : Nat) : Nat :=
  let entries := u32add keys (u32add keys 3 / 4)
  if entries < 10 then 10 else entries

/-- The state `cdbw_output` passes to `print_hash` for an empty database: only
`entries` and `seed` are set. -/
def empty_state : state :=
  { data_entries := 0, entries := 0, keys := 0, seed := 0, g := [], visited := [],
    oedges := [], edges := [], output_index := 0, output_order := [] }

/-- The state of `cdbw_output` after the five `calloc` calls and `seed = 0`. -/
def scratch_state (c : cdbw) : state :=
  let keys := c.key_counter % U32
  let entries := compute_entries keys
  { data_entries := c.data_counter % U32, entries := entries, keys := keys, seed := 0,
    g := List.replicate entries 0, visited := List.replicate entries false,
    oedges := List.replicate entries oedge_zero,
    edges := List.replicate keys { idx := 0, left := 0, middle := 0, right := 0 },
    output_index := 0, output_order := List.replicate keys 0 }

/-- The result of `cdbw_output`: its return value, the chunks passed to `write`
when the serializer returned 0, and the number of calls of the seeder. -/
structure output_result where
  rv : Int
  written : Option (List (List Nat))
  seeder_calls : Nat
  seed : Nat
  g : List Nat
deriving DecidableEq, Repr

/-- The function `cdbw_output`; `ok_alloc` says whether the five `calloc` calls
succeed, `fuel` bounds the attempts of the seed loop. The result is `none` when
the run is undefined or the fuel runs out. -/
def cdbw_output (H : hash_fn) (c : cdbw) (sink : sink_t) (descr : List Nat) (sg : seedgen_t)
    (ok_alloc : Bool) (buf0 : List Nat) (fuel : Nat) : Option output_result :=
  if c.data_counter = 0 ∨ c.key_counter = 0 then
    let w := print_hash c empty_state sink descr buf0
    some { rv := 0, written := w.map (fun x => x.log), seeder_calls := 0, seed := 0, g := [] }
  else if !ok_alloc then
    some { rv := -1, written := some [], seeder_calls := 0, seed := 0, g := [] }
  else
    match seed_loop H c sg fuel (scratch_state c) 0 with
    | none => none
    | some (s1, calls) =>
      match assign_nodes s1 with
      | none => none
      | some s2 =>
        let w := print_hash c s2 sink descr buf0
        some { rv := if w.isSome then 0 else -1, written := w.map (fun x => x.log),
               seeder_calls := calls, seed := s2.seed, g := s2.g }

/-! # Theorems -/

open List

/-! ### The record store -/

theorem realloc_length {α : Type} (l : List α) (n : Nat) (d : α) :
    (realloc l n d).length = n := by
  unfold realloc
  simp only [List.length_append, List.length_take, List.length_replicate]
  omega

theorem realloc_getElem? {α : Type} (l : List α) (n : Nat) (d : α) (i : Nat)
    (hi : i < l.length) (hn : i < n) : (realloc l n d)[i]? = l[i]? := by
  unfold realloc
  rw [List.getElem?_append_left (by simp; omega), List.getElem?_take_of_lt hn]

theorem realloc_take {α : Type} (l : List α) (n : Nat) (d : α) (k : Nat)
    (hk : k ≤ l.length) (hn : k ≤ n) : (realloc l n d).take k = l.take k := by
  apply List.ext_getElem?
  intro i
  rw [List.getElem?_take, List.getElem?_take]
  split_ifs with c
  · exact realloc_getElem? l n d i (by omega) (by omega)
  · rfl

theorem flatten_replicate_nil {α : Type} (n : Nat) :
    (List.replicate n ([] : List α)).flatten = [] := by
  induction n with
  | zero => rfl
  | succ n ih => rw [List.replicate_succ, List.flatten_cons, ih]; rfl

theorem cdbw_empty_inv (H : hash_fn) : cdbw_inv H cdbw_empty := by
  have hh : cdbw_empty.hash = List.replicate 1024 [] := rfl
  refine ⟨by decide, by decide, by decide, by decide, by decide, rfl, by decide, rfl, ?_, ?_,
    by decide, ?_, ?_, ?_, by decide⟩
  · intro i hi; exact absurd hi (Nat.not_lt_zero _)
  · rw [hh, List.length_replicate]; rfl
  · rw [hh, flatten_replicate_nil]; rfl
  · intro b chain hb k hk
    rw [hh, List.getElem?_replicate] at hb
    split_ifs at hb
    simp only [Option.some.injEq] at hb
    subst hb
    simp at hk
  · rw [hh, flatten_replicate_nil]; exact List.nodup_nil

/-- The state and flag after the growth step of `cdbw_put_data`. -/
theorem grow_arrays_spec (H : hash_fn) (c : cdbw) (ok_ptr ok_len : Bool) (hinv : cdbw_inv H c) :
    cdbw_inv H (grow_arrays c ok_ptr ok_len).2 ∧
    (grow_arrays c ok_ptr ok_len).2.data_counter = c.data_counter ∧
    (grow_arrays c ok_ptr ok_len).2.data_size = c.data_size ∧
    (grow_arrays c ok_ptr ok_len).2.hash = c.hash ∧
    (grow_arrays c ok_ptr ok_len).2.hash_size = c.hash_size ∧
    (grow_arrays c ok_ptr ok_len).2.key_counter = c.key_counter ∧
    (∀ i, i < c.data_counter →
      (grow_arrays c ok_ptr ok_len).2.data_ptr[i]? = c.data_ptr[i]? ∧
      (grow_arrays c ok_ptr ok_len).2.data_len[i]? = c.data_len[i]?) ∧
    ((grow_arrays c ok_ptr ok_len).1 = true →
      (grow_arrays c ok_ptr ok_len).2.data_counter < (grow_arrays c ok_ptr ok_len).2.data_allocated) ∧
    (ok_ptr = true → ok_len = true → (grow_arrays c ok_ptr ok_len).1 = true) := by
  have hmax : max_data_counter = 3435973836 := rfl
  have hSIZE : SIZE = 18446744073709551616 := rfl
  have h0 := hinv.alloc_ge
  have h3 := hinv.counter_le
  have h4 := hinv.len_length
  have h5 := hinv.ptr_length
  by_cases h1 : c.data_allocated = c.data_counter
  · by_cases h2 : ok_ptr = true
    · have hnew : (if c.data_allocated = 0 then 256 else c.data_allocated * 2 % SIZE)
          > c.data_counter ∧
          (if c.data_allocated = 0 then 256 else c.data_allocated * 2 % SIZE)
          ≤ 2 * max_data_counter := by
        rw [hSIZE]
        split_ifs <;> omega
      generalize hN : (if c.data_allocated = 0 then 256 else c.data_allocated * 2 % SIZE) = N
        at hnew
      by_cases h6 : ok_len = true
      · have e : grow_arrays c ok_ptr ok_len = (true,
            { c with data_ptr := realloc c.data_ptr N [],
                     data_len := realloc c.data_len N 0,
                     data_allocated := N }) := by
          unfold grow_arrays; simp [h1, h2, h6, ← hN]
        rw [e]
        refine ⟨⟨hinv.counter_le, hinv.keys_le, hinv.size_le, ?_, hnew.2, ?_, ?_, ?_, ?_,
          hinv.hash_length, hinv.hash_pos, hinv.key_count, hinv.nodes, hinv.keys_nodup,
          hinv.hash_size_le⟩,
          rfl, rfl, rfl, rfl, rfl, ?_, fun _ => hnew.1, fun _ _ => rfl⟩
        · show c.data_counter ≤ N
          omega
        · exact realloc_length _ _ _
        · show N ≤ (realloc c.data_ptr N []).length
          rw [realloc_length]
        · show c.data_size = ((realloc c.data_len N 0).take c.data_counter).sum
          rw [realloc_take _ _ _ _ (by omega) (by omega)]
          exact hinv.size_eq
        · intro i hi
          have hi' : i < c.data_counter := hi
          show ((realloc c.data_ptr N []).getD i []).length = (realloc c.data_len N 0).getD i 0
          rw [List.getD_eq_getElem?_getD, List.getD_eq_getElem?_getD,
            realloc_getElem? _ _ _ _ (by omega) (by omega),
            realloc_getElem? _ _ _ _ (by omega) (by omega),
            ← List.getD_eq_getElem?_getD, ← List.getD_eq_getElem?_getD]
          exact hinv.rec_len i hi
        · intro i hi
          exact ⟨realloc_getElem? _ _ _ _ (by omega) (by omega),
            realloc_getElem? _ _ _ _ (by omega) (by omega)⟩
      · have e : grow_arrays c ok_ptr ok_len = (false,
            { c with data_ptr := realloc c.data_ptr N [] }) := by
          unfold grow_arrays; simp [h1, h2, h6, ← hN]
        rw [e]
        refine ⟨⟨hinv.counter_le, hinv.keys_le, hinv.size_le, hinv.alloc_ge, hinv.alloc_le,
          hinv.len_length, ?_, hinv.size_eq, ?_,
          hinv.hash_length, hinv.hash_pos, hinv.key_count, hinv.nodes, hinv.keys_nodup,
          hinv.hash_size_le⟩,
          rfl, rfl, rfl, rfl, rfl, ?_, by simp, fun _ h => absurd h h6⟩
        · show c.data_allocated ≤ (realloc c.data_ptr N []).length
          rw [realloc_length]; omega
        · intro i hi
          have hi' : i < c.data_counter := hi
          show ((realloc c.data_ptr N []).getD i []).length = c.data_len.getD i 0
          rw [List.getD_eq_getElem?_getD, realloc_getElem? _ _ _ _ (by omega) (by omega),
            ← List.getD_eq_getElem?_getD]
          exact hinv.rec_len i hi
        · intro i hi
          exact ⟨realloc_getElem? _ _ _ _ (by omega) (by omega), rfl⟩
    · have e : grow_arrays c ok_ptr ok_len = (false, c) := by
        unfold grow_arrays; simp [h1, h2]
      rw [e]
      exact ⟨hinv, rfl, rfl, rfl, rfl, rfl, fun i _ => ⟨rfl, rfl⟩, by simp, fun h => absurd h h2⟩
  · have e : grow_arrays c ok_ptr ok_len = (true, c) := by
      unfold grow_arrays; simp [h1]
    rw [e]
    have hlt : c.data_counter < c.data_allocated := by omega
    exact ⟨hinv, rfl, rfl, rfl, rfl, rfl, fun i _ => ⟨rfl, rfl⟩, fun _ => hlt, fun _ _ => rfl⟩

theorem keeps_store_refl (c : cdbw) : keeps_store c c :=
  ⟨rfl, rfl, rfl, fun _ _ => ⟨rfl, rfl⟩⟩

theorem neg_one_ne_zero_int : (-1 : Int) ≠ 0 := by decide

/-- The record store after a record is stored in a free slot. -/
theorem store_record_spec (H : hash_fn) (c : cdbw) (data : List Nat) (hinv : cdbw_inv H c)
    (hlt : c.data_counter < c.data_allocated) (hc : c.data_counter ≠ max_data_counter)
    (hfit : c.data_size + data.length ≤ 0xffffffff) :
    cdbw_inv H (store_record c data) ∧ keeps_store c (store_record c data) ∧
    (store_record c data).data_counter = c.data_counter + 1 ∧
    (store_record c data).data_size = c.data_size + data.length ∧
    (store_record c data).data_ptr[c.data_counter]? = some data ∧
    (store_record c data).data_len[c.data_counter]? = some data.length := by
  have hmax : max_data_counter = 3435973836 := rfl
  have hSIZE : SIZE = 18446744073709551616 := rfl
  have hcl := hinv.counter_le
  have i4 := hinv.len_length
  have i5 := hinv.ptr_length
  have hmod : (c.data_size + data.length) % SIZE = c.data_size + data.length := by
    rw [hSIZE]; omega
  refine ⟨⟨?_, hinv.keys_le, ?_, ?_, hinv.alloc_le, ?_, ?_, ?_, ?_,
    hinv.hash_length, hinv.hash_pos, hinv.key_count, ?_, hinv.keys_nodup, hinv.hash_size_le⟩,
    ⟨rfl, rfl, rfl, ?_⟩, rfl, hmod, ?_, ?_⟩
  · show c.data_counter + 1 ≤ max_data_counter
    omega
  · show (c.data_size + data.length) % SIZE ≤ 0xffffffff
    rw [hmod]; exact hfit
  · show c.data_counter + 1 ≤ c.data_allocated
    omega
  · show (c.data_len.set c.data_counter data.length).length = c.data_allocated
    simp [i4]
  · show c.data_allocated ≤ (c.data_ptr.set c.data_counter data).length
    simpa using i5
  · show (c.data_size + data.length) % SIZE
      = ((c.data_len.set c.data_counter data.length).take (c.data_counter + 1)).sum
    rw [hmod, List.sum_take_succ _ _ (by simp; omega), List.getElem_set_self,
      List.set_take, List.set_eq_of_length_le (by simp), ← hinv.size_eq]
  · intro i hi
    have hi' : i < c.data_counter + 1 := hi
    show ((c.data_ptr.set c.data_counter data).getD i []).length
      = (c.data_len.set c.data_counter data.length).getD i 0
    rw [List.getD_eq_getElem?_getD, List.getD_eq_getElem?_getD, List.getElem?_set,
      List.getElem?_set]
    by_cases e : c.data_counter = i
    · rw [if_pos e, if_pos e, if_pos (by omega), if_pos (by omega)]; rfl
    · rw [if_neg e, if_neg e, ← List.getD_eq_getElem?_getD, ← List.getD_eq_getElem?_getD]
      exact hinv.rec_len i (by omega)
  · intro b chain hb k hk
    obtain ⟨n1, n2, n3, n4⟩ := hinv.nodes b chain hb k hk
    exact ⟨n1, n2, n3, Nat.lt_succ_of_lt n4⟩
  · intro i hi
    exact ⟨List.getElem?_set_ne (by omega), List.getElem?_set_ne (by omega)⟩
  · exact List.getElem?_set_self (by omega)
  · exact List.getElem?_set_self (by omega)

/-- The three ways `cdbw_put_data` ends. -/
theorem put_data_cases (H : hash_fn) (c : cdbw) (data : List Nat) (ok_ptr ok_len ok_data : Bool)
    (hinv : cdbw_inv H c) (hlen : data.length < SIZE) :
    ((c.data_counter = max_data_counter ∨ c.data_size + data.length > 0xffffffff) ∧
      cdbw_put_data c data ok_ptr ok_len ok_data = (-1, c, 0)) ∨
    (¬ (c.data_counter = max_data_counter ∨ c.data_size + data.length > 0xffffffff) ∧
      ¬ (ok_ptr = true ∧ ok_len = true ∧ ok_data = true) ∧
      cdbw_put_data c data ok_ptr ok_len ok_data = (-1, (grow_arrays c ok_ptr ok_len).2, 0)) ∨
    (¬ (c.data_counter = max_data_counter ∨ c.data_size + data.length > 0xffffffff) ∧
      (grow_arrays c ok_ptr ok_len).2.data_counter < (grow_arrays c ok_ptr ok_len).2.data_allocated ∧
      cdbw_put_data c data ok_ptr ok_len ok_data =
        (0, store_record (grow_arrays c ok_ptr ok_len).2 data, c.data_counter)) := by
  have hmax : max_data_counter = 3435973836 := rfl
  have hSIZE : SIZE = 18446744073709551616 := rfl
  have hU : U32 = 4294967296 := rfl
  have hs := hinv.size_le
  have hcl := hinv.counter_le
  by_cases h1 : c.data_counter = max_data_counter
  · left
    exact ⟨Or.inl h1, by unfold cdbw_put_data; simp [h1]⟩
  · by_cases h2 : (c.data_size + data.length) % SIZE < c.data_size ∨
        (c.data_size + data.length) % SIZE > 0xffffffff
    · left
      refine ⟨Or.inr ?_, by unfold cdbw_put_data; simp only [h1, if_false, h2, if_true]⟩
      rw [hSIZE] at h2
      omega
    · have hfit : c.data_size + data.length ≤ 0xffffffff := by
        rw [hSIZE] at h2 hlen
        omega
      have hno : ¬ (c.data_counter = max_data_counter ∨
          c.data_size + data.length > 0xffffffff) := by
        intro h; rcases h with h | h
        · exact h1 h
        · omega
      obtain ⟨_, g2, _, _, _, _, _, g8, g9⟩ := grow_arrays_spec H c ok_ptr ok_len hinv
      right
      by_cases h3 : (grow_arrays c ok_ptr ok_len).1 = true
      · by_cases h4 : ok_data = true
        · right
          refine ⟨hno, g8 h3, ?_⟩
          unfold cdbw_put_data
          simp only [h1, if_false, h2, h3, h4, Bool.not_true, Bool.false_eq_true]
          rw [g2, Nat.mod_eq_of_lt (by omega)]
        · left
          refine ⟨hno, fun h => h4 h.2.2, ?_⟩
          unfold cdbw_put_data
          simp only [h1, if_false, h2, h3, h4, Bool.not_true, Bool.false_eq_true]
          simp
      · left
        refine ⟨hno, fun h => h3 (g9 h.1 h.2.1), ?_⟩
        unfold cdbw_put_data
        simp only [h1, if_false, h2, h3]
        simp

/-- The invariant and the old records survive `cdbw_put_data`; a success
appends the record, a failure changes neither counter. -/
theorem put_data_post (H : hash_fn) (c : cdbw) (data : List Nat) (ok_ptr ok_len ok_data : Bool)
    (hinv : cdbw_inv H c) (hlen : data.length < SIZE) :
    cdbw_inv H (cdbw_put_data c data ok_ptr ok_len ok_data).2.1 ∧
    keeps_store c (cdbw_put_data c data ok_ptr ok_len ok_data).2.1 ∧
    ((cdbw_put_data c data ok_ptr ok_len ok_data).1 = 0 →
      (cdbw_put_data c data ok_ptr ok_len ok_data).2.2 = c.data_counter ∧
      (cdbw_put_data c data ok_ptr ok_len ok_data).2.1.data_counter = c.data_counter + 1 ∧
      (cdbw_put_data c data ok_ptr ok_len ok_data).2.1.data_size = c.data_size + data.length ∧
      (cdbw_put_data c data ok_ptr ok_len ok_data).2.1.data_ptr[c.data_counter]? = some data ∧
      (cdbw_put_data c data ok_ptr ok_len ok_data).2.1.data_len[c.data_counter]?
        = some data.length) ∧
    ((cdbw_put_data c data ok_ptr ok_len ok_data).1 ≠ 0 →
      (cdbw_put_data c data ok_ptr ok_len ok_data).1 = -1 ∧
      (cdbw_put_data c data ok_ptr ok_len ok_data).2.1.data_counter = c.data_counter ∧
      (cdbw_put_data c data ok_ptr ok_len ok_data).2.1.data_size = c.data_size) := by
  obtain ⟨g1, g2, g3, g4, g5, g6, g7, _, _⟩ := grow_arrays_spec H c ok_ptr ok_len hinv
  have hk : keeps_store c (grow_arrays c ok_ptr ok_len).2 := ⟨g4, g5, g6, g7⟩
  rcases put_data_cases H c data ok_ptr ok_len ok_data hinv hlen with
    ⟨_, e⟩ | ⟨_, _, e⟩ | ⟨hno, hlt, e⟩
  · rw [e]
    exact ⟨hinv, keeps_store_refl c, fun h => absurd h neg_one_ne_zero_int,
      fun _ => ⟨rfl, rfl, rfl⟩⟩
  · rw [e]
    exact ⟨g1, hk, fun h => absurd h neg_one_ne_zero_int, fun _ => ⟨rfl, g2, g3⟩⟩
  · rw [e]
    have hc : (grow_arrays c ok_ptr ok_len).2.data_counter ≠ max_data_counter := by
      rw [g2]; exact fun h => hno (Or.inl h)
    have hfit : (grow_arrays c ok_ptr ok_len).2.data_size + data.length ≤ 0xffffffff := by
      rw [g3]
      have : ¬ c.data_size + data.length > 0xffffffff := fun h => hno (Or.inr h)
      omega
    obtain ⟨s1, s2, s3, s4, s5, s6⟩ :=
      store_record_spec H (grow_arrays c ok_ptr ok_len).2 data g1 hlt hc hfit
    rw [g2] at s3 s5 s6
    rw [g3] at s4
    refine ⟨s1, ⟨s2.1.trans g4, s2.2.1.trans g5, s2.2.2.1.trans g6, ?_⟩,
      fun _ => ⟨rfl, s3, s4, s5, s6⟩, fun h => absurd rfl h⟩
    intro i hi
    have := s2.2.2.2 i (by rw [g2]; exact hi)
    exact ⟨this.1.trans (g7 i hi).1, this.2.trans (g7 i hi).2⟩

/-! ### The key store -/

theorem land_lt (x n : Nat) (hn : 0 < n) : x &&& (n - 1) < n := by
  have := @Nat.and_le_right x (n - 1)
  omega

theorem flatten_set_perm {α : Type} (l : List (List α)) (b : Nat) (k : α) (hb : b < l.length) :
    (l.set b (k :: l.getD b [])).flatten ~ k :: l.flatten := by
  induction l generalizing b with
  | nil => simp at hb
  | cons a l ih =>
    cases b with
    | zero => simp
    | succ b =>
      simp only [List.set_cons_succ, List.flatten_cons, List.getD_cons_succ]
      have := ih b (by simpa using hb)
      exact (this.append_left a).trans (List.perm_middle)

theorem node_ok_base {H n dc b k} (h : node_ok H n dc b k) : node_base H dc k :=
  ⟨h.1, h.2.1, h.2.2.2⟩

theorem table_insert (H : hash_fn) (n dc : Nat) (T : List (List key_hash)) (k : key_hash)
    (hn : 0 < n) (hT : table_ok H n dc T) (hk : node_base H dc k) :
    table_ok H n dc (T.set (k.hashes.1 &&& (n - 1)) (k :: T.getD (k.hashes.1 &&& (n - 1)) [])) ∧
    (T.set (k.hashes.1 &&& (n - 1)) (k :: T.getD (k.hashes.1 &&& (n - 1)) [])).flatten
      ~ k :: T.flatten := by
  obtain ⟨hl, hnodes⟩ := hT
  have hb := land_lt k.hashes.1 n hn
  refine ⟨⟨by simp [hl], ?_⟩, flatten_set_perm T _ k (by omega)⟩
  intro b chain hbc k' hk'
  rw [List.getElem?_set] at hbc
  split_ifs at hbc with c1 c2
  · simp only [Option.some.injEq] at hbc
    subst hbc
    rcases List.mem_cons.1 hk' with rfl | hk'
    · exact ⟨hk.1, hk.2.1, c1, hk.2.2⟩
    · have : T[b]? = some (T.getD b []) := by
        rw [List.getD_eq_getElem?_getD, List.getElem?_eq_getElem (by omega)]; rfl
      rw [c1] at hk'
      exact hnodes b _ this k' hk'
  · exact hnodes b chain hbc k' hk'

theorem rehash_chain (H : hash_fn) (m dc : Nat) (hm : 0 < m) (chain : List key_hash)
    (nh : List (List key_hash)) (hT : table_ok H m dc nh) (hc : ∀ k ∈ chain, node_base H dc k) :
    table_ok H m dc (chain.foldl (rehash_move m) nh) ∧
    (chain.foldl (rehash_move m) nh).flatten ~ chain ++ nh.flatten := by
  induction chain generalizing nh with
  | nil => exact ⟨hT, List.Perm.refl _⟩
  | cons k chain ih =>
    obtain ⟨t1, p1⟩ := table_insert H m dc nh k hm hT (hc k (by simp))
    obtain ⟨t2, p2⟩ := ih (rehash_move m nh k) t1 (fun k' hk' => hc k' (List.mem_cons_of_mem _ hk'))
    refine ⟨t2, ?_⟩
    simp only [List.foldl_cons]
    refine p2.trans ?_
    have : rehash_move m nh k = nh.set (k.hashes.1 &&& (m - 1))
        (k :: nh.getD (k.hashes.1 &&& (m - 1)) []) := rfl
    rw [this]
    exact ((p1.append_left chain).trans List.perm_middle)

theorem rehash_tables (H : hash_fn) (m dc : Nat) (hm : 0 < m) (old : List (List key_hash))
    (nh : List (List key_hash)) (hT : table_ok H m dc nh)
    (hc : ∀ chain ∈ old, ∀ k ∈ chain, node_base H dc k) :
    table_ok H m dc (old.foldl (fun nh chain => chain.foldl (rehash_move m) nh) nh) ∧
    (old.foldl (fun nh chain => chain.foldl (rehash_move m) nh) nh).flatten
      ~ old.flatten ++ nh.flatten := by
  induction old generalizing nh with
  | nil => exact ⟨hT, List.Perm.refl _⟩
  | cons chain old ih =>
    obtain ⟨t1, p1⟩ := rehash_chain H m dc hm chain nh hT (hc chain (by simp))
    obtain ⟨t2, p2⟩ := ih _ t1 (fun ch hch => hc ch (List.mem_cons_of_mem _ hch))
    refine ⟨t2, ?_⟩
    simp only [List.foldl_cons, List.flatten_cons]
    refine p2.trans ?_
    refine (p1.append_left old.flatten).trans ?_
    rw [← List.append_assoc]
    exact List.Perm.append_right _ List.perm_append_comm

theorem rehash_spec (H : hash_fn) (n m dc : Nat) (hm : 0 < m) (old : List (List key_hash))
    (hT : table_ok H n dc old) :
    table_ok H m dc (rehash old m) ∧ (rehash old m).flatten ~ old.flatten := by
  have h0 : table_ok H m dc (List.replicate m []) := by
    refine ⟨List.length_replicate _ _, ?_⟩
    intro b chain hb k hk
    rw [List.getElem?_replicate] at hb
    split_ifs at hb
    simp only [Option.some.injEq] at hb
    subst hb
    simp at hk
  obtain ⟨t, p⟩ := rehash_tables H m dc hm old _ h0 (by
    intro chain hch k hk
    obtain ⟨b, hb⟩ := List.mem_iff_getElem?.1 hch
    exact node_ok_base (hT.2 b chain hb k hk))
  refine ⟨t, ?_⟩
  unfold rehash
  rw [flatten_replicate_nil, List.append_nil] at p
  exact p

theorem inv_table (H : hash_fn) (c : cdbw) (hinv : cdbw_inv H c) :
    table_ok H c.hash_size c.data_counter c.hash :=
  ⟨hinv.hash_length, hinv.nodes⟩

theorem resident_eq (H : hash_fn) (c : cdbw) (hinv : cdbw_inv H c) :
    resident c = c.hash.flatten := by
  unfold resident
  congr 1
  apply List.ext_getElem?
  intro i
  rw [List.getElem?_map]
  by_cases h : i < c.hash_size
  · rw [List.getElem?_range h, Option.map_some', List.getD_eq_getElem?_getD,
      List.getElem?_eq_getElem (by rw [hinv.hash_length]; exact h)]
    rfl
  · rw [List.getElem?_eq_none (by simpa using h),
      List.getElem?_eq_none (by rw [hinv.hash_length]; omega)]
    rfl

/-- The duplicate test of `cdbw_put_key` finds a node exactly when the key is
resident. -/
theorem dup_found_iff (H : hash_fn) (c : cdbw) (hinv : cdbw_inv H c) (key : List Nat) :
    (c.hash.getD ((mi_vector_hash H key 0).1 &&& (c.hash_size - 1)) []).any
        (fun k => key_matches k key (mi_vector_hash H key 0)) = true ↔
      ∃ k ∈ c.hash.flatten, k.key = key := by
  have hb := land_lt (mi_vector_hash H key 0).1 c.hash_size hinv.hash_pos
  have hget : c.hash[(mi_vector_hash H key 0).1 &&& (c.hash_size - 1)]? =
      some (c.hash.getD ((mi_vector_hash H key 0).1 &&& (c.hash_size - 1)) []) := by
    rw [List.getD_eq_getElem?_getD, List.getElem?_eq_getElem (by rw [hinv.hash_length]; exact hb)]
    rfl
  rw [List.any_eq_true]
  constructor
  · rintro ⟨k, hk, hm⟩
    obtain ⟨n1, n2, n3, n4⟩ := hinv.nodes _ _ hget k hk
    refine ⟨k, List.mem_flatten.2 ⟨_, List.getElem?_mem hget, hk⟩, ?_⟩
    unfold key_matches at hm
    split_ifs at hm with a1 a2 a3 a4 a5
    have a1' : k.keylen = key.length := by simpa using a1
    have a5' : key.take key.length = k.key.take key.length := by simpa using a5
    rw [List.take_length] at a5'
    rw [a5', ← a1', n2, List.take_length]
  · rintro ⟨k, hk, rfl⟩
    obtain ⟨chain, hch, hkc⟩ := List.mem_flatten.1 hk
    obtain ⟨b, hbc⟩ := List.mem_iff_getElem?.1 hch
    obtain ⟨n1, n2, n3, n4⟩ := hinv.nodes b chain hbc k hkc
    rw [n1] at n3
    rw [n3] at hget
    rw [hbc] at hget
    simp only [Option.some.injEq] at hget
    refine ⟨k, by rw [n3, ← hget]; exact hkc, ?_⟩
    unfold key_matches
    simp [n1, n2]

theorem inv_of_table (H : hash_fn) (c c' : cdbw) (hinv : cdbw_inv H c) (hr : same_records c c')
    (hT : table_ok H c'.hash_size c.data_counter c'.hash) (hpos : 0 < c'.hash_size)
    (hle : c'.hash_size ≤ 2 * max_data_counter) (hk : c'.key_counter = c'.hash.flatten.length)
    (hkl : c'.key_counter ≤ max_data_counter)
    (hnd : (c'.hash.flatten.map (fun k => k.key)).Nodup) : cdbw_inv H c' := by
  obtain ⟨r1, r2, r3, r4, r5⟩ := hr
  refine ⟨?_, hkl, ?_, ?_, ?_, ?_, ?_, ?_, ?_, hT.1, hpos, hk, ?_, hnd, hle⟩
  · rw [r1]; exact hinv.counter_le
  · rw [r3]; exact hinv.size_le
  · rw [r1, r2]; exact hinv.alloc_ge
  · rw [r2]; exact hinv.alloc_le
  · rw [r4, r2]; exact hinv.len_length
  · rw [r5, r2]; exact hinv.ptr_length
  · rw [r3, r4, r1]; exact hinv.size_eq
  · rw [r1, r4, r5]; exact hinv.rec_len
  · rw [r1]; exact hT.2

/-- The two ways `cdbw_put_key` ends: the builder is returned unchanged with
-1, or the key is added and 0 is returned. -/
theorem put_key_cases (H : hash_fn) (c : cdbw) (key : List Nat) (idx : Nat)
    (ok_node ok_key ok_rehash : Bool) (hinv : cdbw_inv H c) :
    ((idx ≥ c.data_counter ∨ c.key_counter = max_data_counter ∨
        (∃ k ∈ c.hash.flatten, k.key = key) ∨ ok_node = false ∨ ok_key = false) ∧
      cdbw_put_key H c key idx ok_node ok_key ok_rehash = (-1, c)) ∨
    (idx < c.data_counter ∧ c.key_counter ≠ max_data_counter ∧
      (∀ k ∈ c.hash.flatten, k.key ≠ key) ∧ ok_node = true ∧ ok_key = true ∧
      ∃ c', cdbw_put_key H c key idx ok_node ok_key ok_rehash = (0, c') ∧
        cdbw_inv H c' ∧ same_records c c' ∧ c'.key_counter = c.key_counter + 1 ∧
        c'.hash.flatten ~ key_node H key idx :: c.hash.flatten) := by
  have hmax : max_data_counter = 3435973836 := rfl
  have hSIZE : SIZE = 18446744073709551616 := rfl
  by_cases h1 : idx ≥ c.data_counter ∨ c.key_counter = max_data_counter
  · left
    refine ⟨?_, by unfold cdbw_put_key; simp only [h1, if_true]⟩
    rcases h1 with h | h
    · exact Or.inl h
    · exact Or.inr (Or.inl h)
  · have hidx : idx < c.data_counter := by
      by_contra h; exact h1 (Or.inl (by omega))
    have hkc : c.key_counter ≠ max_data_counter := fun h => h1 (Or.inr h)
    have hdup := dup_found_iff H c hinv key
    by_cases h2 : (c.hash.getD ((mi_vector_hash H key 0).1 &&& (c.hash_size - 1)) []).any
        (fun k => key_matches k key (mi_vector_hash H key 0)) = true
    · left
      refine ⟨Or.inr (Or.inr (Or.inl (hdup.1 h2))), ?_⟩
      unfold cdbw_put_key; simp only [h1, if_false, h2, if_true]
    · have hnew : ∀ k ∈ c.hash.flatten, k.key ≠ key := by
        intro k hk he
        exact h2 (hdup.2 ⟨k, hk, he⟩)
      by_cases h3 : ok_node = true
      · by_cases h4 : ok_key = true
        · right
          refine ⟨hidx, hkc, hnew, h3, h4, ?_⟩
          have hbase : node_base H c.data_counter (key_node H key idx) := ⟨rfl, rfl, hidx⟩
          obtain ⟨t1, p1⟩ := table_insert H c.hash_size c.data_counter c.hash
            (key_node H key idx) hinv.hash_pos (inv_table H c hinv) hbase
          have hnd1 : ((insert_node c (key_node H key idx)).hash.flatten.map
              (fun k => k.key)).Nodup := by
            have hp : (insert_node c (key_node H key idx)).hash.flatten.map (fun k => k.key)
                ~ key :: c.hash.flatten.map (fun k => k.key) := p1.map _
            rw [hp.nodup_iff, List.nodup_cons]
            refine ⟨?_, hinv.keys_nodup⟩
            intro hmem
            obtain ⟨k, hk, he⟩ := List.mem_map.1 hmem
            exact hnew k hk he
          have hk1 : (insert_node c (key_node H key idx)).key_counter
              = (insert_node c (key_node H key idx)).hash.flatten.length := by
            have := p1.length_eq
            show c.key_counter + 1 = (c.hash.set _ _).flatten.length
            rw [this, List.length_cons, hinv.key_count]
          have hkl := hinv.keys_le
          have inv1 : cdbw_inv H (insert_node c (key_node H key idx)) :=
            inv_of_table H c _ hinv ⟨rfl, rfl, rfl, rfl, rfl⟩ t1 hinv.hash_pos
              hinv.hash_size_le hk1 (by show c.key_counter + 1 ≤ _; omega) hnd1
          by_cases h5 : (insert_node c (key_node H key idx)).key_counter
              ≤ (insert_node c (key_node H key idx)).hash_size
          · refine ⟨_, ?_, inv1, ⟨rfl, rfl, rfl, rfl, rfl⟩, rfl, p1⟩
            unfold cdbw_put_key
            simp only [h1, if_false, h2, h3, h4, Bool.not_true, Bool.false_eq_true, h5, if_true]
          · by_cases h6 : ok_rehash = true
            · have h5' : c.hash_size < c.key_counter + 1 := by
                have : ¬ c.key_counter + 1 ≤ c.hash_size := h5
                omega
              have hm : (c.hash_size * 2) % SIZE = c.hash_size * 2 := by
                rw [hSIZE]; omega
              have hpos := hinv.hash_pos
              obtain ⟨t2, p2⟩ := rehash_spec H c.hash_size (c.hash_size * 2) c.data_counter
                (by omega) (insert_node c (key_node H key idx)).hash t1
              refine ⟨grow_table (insert_node c (key_node H key idx)), ?_, ?_,
                ⟨rfl, rfl, rfl, rfl, rfl⟩, rfl, ?_⟩
              · unfold cdbw_put_key
                simp only [h1, if_false, h2, h3, h4, h6, Bool.not_true, Bool.false_eq_true, h5]
              · refine inv_of_table H c _ hinv ⟨rfl, rfl, rfl, rfl, rfl⟩ ?_ ?_ ?_ ?_ ?_ ?_
                · show table_ok H ((c.hash_size * 2) % SIZE) c.data_counter
                    (rehash _ ((c.hash_size * 2) % SIZE))
                  rw [hm]; exact t2
                · show 0 < (c.hash_size * 2) % SIZE
                  rw [hm]; omega
                · show (c.hash_size * 2) % SIZE ≤ _
                  rw [hm]; omega
                · show c.key_counter + 1 = (rehash _ ((c.hash_size * 2) % SIZE)).flatten.length
                  rw [hm, p2.length_eq]; exact hk1
                · show c.key_counter + 1 ≤ _
                  omega
                · show ((rehash _ ((c.hash_size * 2) % SIZE)).flatten.map _).Nodup
                  rw [hm, (p2.map _).nodup_iff]; exact hnd1
              · show (rehash _ ((c.hash_size * 2) % SIZE)).flatten ~ _
                rw [hm]; exact p2.trans p1
            · refine ⟨_, ?_, inv1, ⟨rfl, rfl, rfl, rfl, rfl⟩, rfl, p1⟩
              unfold cdbw_put_key
              simp only [h1, if_false, h2, h3, h4, h6, Bool.not_true, Bool.false_eq_true, h5]
              simp
        · left
          refine ⟨Or.inr (Or.inr (Or.inr (Or.inr (by simpa using h4)))), ?_⟩
          unfold cdbw_put_key
          simp only [h1, if_false, h2, h3, h4, Bool.not_true, Bool.false_eq_true]
          simp
      · left
        refine ⟨Or.inr (Or.inr (Or.inr (Or.inl (by simpa using h3)))), ?_⟩
        unfold cdbw_put_key
        simp only [h1, if_false, h2, h3]
        simp

theorem put_key_inv (H : hash_fn) (c : cdbw) (key : List Nat) (idx : Nat)
    (ok_node ok_key ok_rehash : Bool) (hinv : cdbw_inv H c) :
    cdbw_inv H (cdbw_put_key H c key idx ok_node ok_key ok_rehash).2 := by
  rcases put_key_cases H c key idx ok_node ok_key ok_rehash hinv with
    ⟨_, e⟩ | ⟨_, _, _, _, _, c', e, hinv', _⟩
  · rw [e]; exact hinv
  · rw [e]; exact hinv'

/-- The builder after the rollback of `cdbw_put`. -/
theorem rollback_spec (H : hash_fn) (c c1 : cdbw) (len : Nat) (hinv : cdbw_inv H c)
    (hinv1 : cdbw_inv H c1) (hk : keeps_store c c1)
    (hdc : c1.data_counter = c.data_counter + 1) (hds : c1.data_size = c.data_size + len)
    (hlen : len < SIZE) :
    cdbw_inv H { c1 with data_counter := (c1.data_counter + (SIZE - 1)) % SIZE,
                         data_size := (c1.data_size + (SIZE - len % SIZE)) % SIZE } ∧
    (c1.data_counter + (SIZE - 1)) % SIZE = c.data_counter ∧
    (c1.data_size + (SIZE - len % SIZE)) % SIZE = c.data_size := by
  have hmax : max_data_counter = 3435973836 := rfl
  have hSIZE : SIZE = 18446744073709551616 := rfl
  have h1 := hinv.counter_le
  have h2 := hinv1.size_le
  have e1 : (c1.data_counter + (SIZE - 1)) % SIZE = c.data_counter := by
    rw [hdc, hSIZE]; omega
  have e2 : (c1.data_size + (SIZE - len % SIZE)) % SIZE = c.data_size := by
    rw [hds, hSIZE]; rw [hSIZE] at hlen; omega
  refine ⟨?_, e1, e2⟩
  rw [e1, e2]
  obtain ⟨k1, k2, k3, k4⟩ := hk
  have a1 := hinv1.alloc_ge
  have a2 := hinv1.len_length
  refine ⟨h1, hinv1.keys_le, hinv.size_le, ?_, hinv1.alloc_le, hinv1.len_length,
    hinv1.ptr_length, ?_, ?_, hinv1.hash_length, hinv1.hash_pos, hinv1.key_count, ?_,
    hinv1.keys_nodup, hinv1.hash_size_le⟩
  · show c.data_counter ≤ c1.data_allocated
    omega
  · show c.data_size = (c1.data_len.take c.data_counter).sum
    have : c1.data_len.take c.data_counter = c.data_len.take c.data_counter := by
      apply List.ext_getElem?
      intro i
      rw [List.getElem?_take, List.getElem?_take]
      split_ifs with h
      · exact (k4 i h).2
      · rfl
    rw [this]; exact hinv.size_eq
  · intro i hi
    exact hinv1.rec_len i (by rw [hdc]; exact Nat.lt_succ_of_lt hi)
  · intro b chain hb k hkc
    show node_ok H c1.hash_size c.data_counter b k
    rw [k1] at hb
    rw [k2]
    exact hinv.nodes b chain hb k hkc

/-- The three ways `cdbw_put` ends: the record step fails, the key step fails
and the record is removed again, or both steps succeed. -/
theorem put_cases (H : hash_fn) (c : cdbw) (key data : List Nat)
    (ok_ptr ok_len ok_data ok_node ok_key ok_rehash : Bool) (hinv : cdbw_inv H c)
    (hlen : data.length < SIZE) :
    ((cdbw_put_data c data ok_ptr ok_len ok_data).1 ≠ 0 ∧
      cdbw_put H c key data ok_ptr ok_len ok_data ok_node ok_key ok_rehash =
        ((cdbw_put_data c data ok_ptr ok_len ok_data).1,
         (cdbw_put_data c data ok_ptr ok_len ok_data).2.1)) ∨
    ((cdbw_put_data c data ok_ptr ok_len ok_data).1 = 0 ∧
      (cdbw_put_key H (cdbw_put_data c data ok_ptr ok_len ok_data).2.1 key
        (cdbw_put_data c data ok_ptr ok_len ok_data).2.2 ok_node ok_key ok_rehash).1 ≠ 0 ∧
      cdbw_put H c key data ok_ptr ok_len ok_data ok_node ok_key ok_rehash =
        (-1, { (cdbw_put_data c data ok_ptr ok_len ok_data).2.1 with
                data_counter := c.data_counter, data_size := c.data_size }) ∧
      cdbw_inv H { (cdbw_put_data c data ok_ptr ok_len ok_data).2.1 with
                data_counter := c.data_counter, data_size := c.data_size }) ∨
    ((cdbw_put_data c data ok_ptr ok_len ok_data).1 = 0 ∧
      (cdbw_put_key H (cdbw_put_data c data ok_ptr ok_len ok_data).2.1 key
        (cdbw_put_data c data ok_ptr ok_len ok_data).2.2 ok_node ok_key ok_rehash).1 = 0 ∧
      cdbw_put H c key data ok_ptr ok_len ok_data ok_node ok_key ok_rehash =
        (0, (cdbw_put_key H (cdbw_put_data c data ok_ptr ok_len ok_data).2.1 key
          (cdbw_put_data c data ok_ptr ok_len ok_data).2.2 ok_node ok_key ok_rehash).2)) := by
  obtain ⟨i1, ks, hok, hfail⟩ := put_data_post H c data ok_ptr ok_len ok_data hinv hlen
  by_cases h1 : (cdbw_put_data c data ok_ptr ok_len ok_data).1 = 0
  · right
    obtain ⟨o1, o2, o3, o4, o5⟩ := hok h1
    by_cases h2 : (cdbw_put_key H (cdbw_put_data c data ok_ptr ok_len ok_data).2.1 key
        (cdbw_put_data c data ok_ptr ok_len ok_data).2.2 ok_node ok_key ok_rehash).1 = 0
    · right
      refine ⟨h1, h2, ?_⟩
      unfold cdbw_put
      simp only [h1, h2, ne_eq, not_true_eq_false, if_false]
    · left
      have hk2 : cdbw_put_key H (cdbw_put_data c data ok_ptr ok_len ok_data).2.1 key
          (cdbw_put_data c data ok_ptr ok_len ok_data).2.2 ok_node ok_key ok_rehash
          = (-1, (cdbw_put_data c data ok_ptr ok_len ok_data).2.1) := by
        rcases put_key_cases H _ key (cdbw_put_data c data ok_ptr ok_len ok_data).2.2
          ok_node ok_key ok_rehash i1 with ⟨_, e⟩ | ⟨_, _, _, _, _, c', e, _⟩
        · exact e
        · rw [e] at h2; exact absurd rfl h2
      obtain ⟨r1, r2, r3⟩ := rollback_spec H c _ data.length hinv i1 ks o2 o3 hlen
      rw [r2, r3] at r1
      refine ⟨h1, h2, ?_, r1⟩
      unfold cdbw_put
      simp only [h1, ne_eq, not_true_eq_false, if_false, hk2, r2, r3]
      simp
  · left
    refine ⟨h1, ?_⟩
    unfold cdbw_put
    simp only [h1, ne_eq, not_false_eq_true, if_true]

theorem put_inv (H : hash_fn) (c : cdbw) (key data : List Nat)
    (ok_ptr ok_len ok_data ok_node ok_key ok_rehash : Bool) (hinv : cdbw_inv H c)
    (hlen : data.length < SIZE) :
    cdbw_inv H (cdbw_put H c key data ok_ptr ok_len ok_data ok_node ok_key ok_rehash).2 := by
  obtain ⟨i1, _, _, _⟩ := put_data_post H c data ok_ptr ok_len ok_data hinv hlen
  rcases put_cases H c key data ok_ptr ok_len ok_data ok_node ok_key ok_rehash hinv hlen with
    ⟨_, e⟩ | ⟨_, _, e, hi⟩ | ⟨_, _, e⟩
  · rw [e]; exact i1
  · rw [e]; exact hi
  · rw [e]; exact put_key_inv H _ key _ ok_node ok_key ok_rehash i1

/-- Every reachable builder satisfies the invariant. -/
theorem reachable_inv (H : hash_fn) (c : cdbw) (h : Reachable H c) : cdbw_inv H c := by
  induction h with
  | opened => exact cdbw_empty_inv H
  | put_data c data a1 a2 a3 _ hlen ih => exact (put_data_post H c data a1 a2 a3 ih hlen).1
  | put_key c key idx a1 a2 a3 _ ih => exact put_key_inv H c key idx a1 a2 a3 ih
  | put c key data a1 a2 a3 a4 a5 a6 _ hlen ih =>
    exact put_inv H c key data a1 a2 a3 a4 a5 a6 ih hlen

/-! ## Claims about the record store and the key store -/

/-- The sample builder is reachable: one `cdbw_put` on a new builder. -/
theorem sample_reachable : Reachable sample_hash sample_builder :=
  Reachable.put cdbw_empty [97] [49] true true true true true true Reachable.opened (by decide)

/-- Claim C4: in a reachable builder that already holds a key with the same
length and bytes, `cdbw_put_key` returns -1 for every index and every
allocation outcome and returns the builder unchanged (key set, `key_counter`
and records); and the resident keys of a reachable builder are pairwise
different byte strings, whatever rehashes took place. -/
theorem put_key_rejects_duplicate (H : hash_fn) (c : cdbw) (key : List Nat) (idx : Nat)
    (ok_node ok_key ok_rehash : Bool) (hr : Reachable H c)
    (hdup : ∃ k ∈ resident c, k.keylen = key.length ∧ k.key = key) :
    cdbw_put_key H c key idx ok_node ok_key ok_rehash = (-1, c) ∧
    ((resident c).map (fun k => k.key)).Nodup := by
  have hinv := reachable_inv H c hr
  rw [resident_eq H c hinv] at hdup ⊢
  refine ⟨?_, hinv.keys_nodup⟩
  obtain ⟨k, hk, _, hkey⟩ := hdup
  rcases put_key_cases H c key idx ok_node ok_key ok_rehash hinv with
    ⟨_, e⟩ | ⟨_, _, hnew, _⟩
  · exact e
  · exact absurd hkey (hnew k hk)

set_option maxRecDepth 100000 in
/-- Witness of C4: the key "a" on the sample builder. -/
theorem put_key_rejects_duplicate_witness :
    (Reachable sample_hash sample_builder ∧
      ∃ k ∈ resident sample_builder, k.keylen = [97].length ∧ k.key = [97]) ∧
    cdbw_put_key sample_hash sample_builder [97] 0 true true true = (-1, sample_builder) ∧
    ((resident sample_builder).map (fun k => k.key)).Nodup :=
  ⟨⟨sample_reachable, by decide⟩,
    put_key_rejects_duplicate sample_hash sample_builder [97] 0 true true true
      sample_reachable (by decide)⟩

/-- Claim C5: when the record step of `cdbw_put` succeeds and its key step
fails, `cdbw_put` returns an error and afterwards `data_counter` and
`data_size` have their old values, the old records and their lengths are
unchanged, and the key store is unchanged. -/
theorem put_rolls_back (H : hash_fn) (c : cdbw) (key data : List Nat)
    (ok_ptr ok_len ok_data ok_node ok_key ok_rehash : Bool) (hr : Reachable H c)
    (hlen : data.length < SIZE)
    (hd : (cdbw_put_data c data ok_ptr ok_len ok_data).1 = 0)
    (hk : (cdbw_put_key H (cdbw_put_data c data ok_ptr ok_len ok_data).2.1 key
      (cdbw_put_data c data ok_ptr ok_len ok_data).2.2 ok_node ok_key ok_rehash).1 ≠ 0) :
    (cdbw_put H c key data ok_ptr ok_len ok_data ok_node ok_key ok_rehash).1 ≠ 0 ∧
    (cdbw_put H c key data ok_ptr ok_len ok_data ok_node ok_key ok_rehash).2.data_counter
      = c.data_counter ∧
    (cdbw_put H c key data ok_ptr ok_len ok_data ok_node ok_key ok_rehash).2.data_size
      = c.data_size ∧
    keeps_store c (cdbw_put H c key data ok_ptr ok_len ok_data ok_node ok_key ok_rehash).2 := by
  have hinv := reachable_inv H c hr
  obtain ⟨_, ks, _, _⟩ := put_data_post H c data ok_ptr ok_len ok_data hinv hlen
  rcases put_cases H c key data ok_ptr ok_len ok_data ok_node ok_key ok_rehash hinv hlen with
    ⟨h, _⟩ | ⟨_, _, e, _⟩ | ⟨_, h, _⟩
  · exact absurd hd h
  · rw [e]
    exact ⟨neg_one_ne_zero_int, rfl, rfl, ks⟩
  · exact absurd h hk

set_option maxRecDepth 100000 in
/-- Witness of C5: a put on the new builder whose node allocation fails. -/
theorem put_rolls_back_witness :
    (Reachable sample_hash cdbw_empty ∧ [49].length < SIZE ∧
      (cdbw_put_data cdbw_empty [49] true true true).1 = 0 ∧
      (cdbw_put_key sample_hash (cdbw_put_data cdbw_empty [49] true true true).2.1 [97]
        (cdbw_put_data cdbw_empty [49] true true true).2.2 false true true).1 ≠ 0) ∧
    (cdbw_put sample_hash cdbw_empty [97] [49] true true true false true true).1 ≠ 0 ∧
    (cdbw_put sample_hash cdbw_empty [97] [49] true true true false true true).2.data_counter
      = cdbw_empty.data_counter ∧
    (cdbw_put sample_hash cdbw_empty [97] [49] true true true false true true).2.data_size
      = cdbw_empty.data_size ∧
    keeps_store cdbw_empty
      (cdbw_put sample_hash cdbw_empty [97] [49] true true true false true true).2 :=
  ⟨⟨Reachable.opened, by decide, by decide, by decide⟩,
    put_rolls_back sample_hash cdbw_empty [97] [49] true true true false true true
      Reachable.opened (by decide) (by decide) (by decide)⟩

/-- Claim C6: `cdbw_put_key` returns -1 and changes nothing whenever
`idx >= data_counter`, and in every reachable builder, also after rolled back
puts, the index of every resident key is below `data_counter`. -/
theorem key_index_below_counter (H : hash_fn) (c : cdbw) (hr : Reachable H c) :
    (∀ key idx ok_node ok_key ok_rehash, idx ≥ c.data_counter →
      cdbw_put_key H c key idx ok_node ok_key ok_rehash = (-1, c)) ∧
    ∀ k ∈ resident c, k.idx < c.data_counter := by
  have hinv := reachable_inv H c hr
  constructor
  · intro key idx a1 a2 a3 h
    unfold cdbw_put_key
    rw [if_pos (Or.inl h)]
  · rw [resident_eq H c hinv]
    intro k hk
    obtain ⟨chain, hch, hkc⟩ := List.mem_flatten.1 hk
    obtain ⟨b, hb⟩ := List.mem_iff_getElem?.1 hch
    exact (hinv.nodes b chain hb k hkc).2.2.2

/-- Witness of C6: the sample builder. -/
theorem key_index_below_counter_witness :
    Reachable sample_hash sample_builder ∧
    ((∀ key idx ok_node ok_key ok_rehash, idx ≥ sample_builder.data_counter →
      cdbw_put_key sample_hash sample_builder key idx ok_node ok_key ok_rehash
        = (-1, sample_builder)) ∧
    ∀ k ∈ resident sample_builder, k.idx < sample_builder.data_counter) :=
  ⟨sample_reachable, key_index_below_counter sample_hash sample_builder sample_reachable⟩

/-- Claim C7: on a reachable builder and a byte string whose length is a
`size_t`, with all allocations succeeding `cdbw_put_data` fails exactly when
`data_counter` is 0xCCCCCCCC or `data_size + len` exceeds 0xFFFFFFFF; a
success returns the old `data_counter` as index, stores the bytes and the
length there, adds 1 to `data_counter` and `len` to `data_size`; in every case
the old records and all keys are unchanged, and a failure (also one caused by
an allocation) leaves `data_counter` and `data_size` unchanged. -/
theorem put_data_contract (H : hash_fn) (c : cdbw) (data : List Nat) (hr : Reachable H c)
    (hlen : data.length < SIZE) :
    ((cdbw_put_data c data true true true).1 ≠ 0 ↔
      (c.data_counter = 0xcccccccc ∨ c.data_size + data.length > 0xffffffff)) ∧
    (∀ ok_ptr ok_len ok_data,
      keeps_store c (cdbw_put_data c data ok_ptr ok_len ok_data).2.1 ∧
      ((cdbw_put_data c data ok_ptr ok_len ok_data).1 = 0 →
        (cdbw_put_data c data ok_ptr ok_len ok_data).2.2 = c.data_counter ∧
        (cdbw_put_data c data ok_ptr ok_len ok_data).2.1.data_counter = c.data_counter + 1 ∧
        (cdbw_put_data c data ok_ptr ok_len ok_data).2.1.data_size
          = c.data_size + data.length ∧
        (cdbw_put_data c data ok_ptr ok_len ok_data).2.1.data_ptr[c.data_counter]? = some data ∧
        (cdbw_put_data c data ok_ptr ok_len ok_data).2.1.data_len[c.data_counter]?
          = some data.length) ∧
      ((cdbw_put_data c data ok_ptr ok_len ok_data).1 ≠ 0 →
        (cdbw_put_data c data ok_ptr ok_len ok_data).2.1.data_counter = c.data_counter ∧
        (cdbw_put_data c data ok_ptr ok_len ok_data).2.1.data_size = c.data_size)) := by
  have hinv := reachable_inv H c hr
  constructor
  · rcases put_data_cases H c data true true true hinv hlen with
      ⟨h, e⟩ | ⟨_, h, _⟩ | ⟨h, _, e⟩
    · rw [e]; exact ⟨fun _ => h, fun _ => neg_one_ne_zero_int⟩
    · exact absurd ⟨rfl, rfl, rfl⟩ h
    · rw [e]; exact ⟨fun h' => absurd rfl h', fun h' => absurd h' h⟩
  · intro a1 a2 a3
    obtain ⟨_, ks, hok, hfail⟩ := put_data_post H c data a1 a2 a3 hinv hlen
    exact ⟨ks, hok, fun h => (hfail h).2⟩

/-- Witness of C7: a record of two bytes on the sample builder. -/
theorem put_data_contract_witness :
    (Reachable sample_hash sample_builder ∧ [50, 51].length < SIZE) ∧
    ((cdbw_put_data sample_builder [50, 51] true true true).1 ≠ 0 ↔
      (sample_builder.data_counter = 0xcccccccc ∨
        sample_builder.data_size + [50, 51].length > 0xffffffff)) :=
  ⟨⟨sample_reachable, by decide⟩,
    (put_data_contract sample_hash sample_builder [50, 51] sample_reachable (by decide)).1⟩

/-- Claim C8: in every reachable builder `data_counter` and `key_counter` are
at most 0xCCCCCCCC, `data_size` is at most 0xFFFFFFFF and equals the sum of the
first `data_counter` lengths, and `key_counter` is the number of resident keys. -/
theorem reachable_bounds (H : hash_fn) (c : cdbw) (hr : Reachable H c) :
    c.data_counter ≤ 0xcccccccc ∧ c.key_counter ≤ 0xcccccccc ∧ c.data_size ≤ 0xffffffff ∧
    c.data_size = (c.data_len.take c.data_counter).sum ∧
    c.key_counter = (resident c).length := by
  have hinv := reachable_inv H c hr
  rw [resident_eq H c hinv]
  exact ⟨hinv.counter_le, hinv.keys_le, hinv.size_le, hinv.size_eq, hinv.key_count⟩

/-- Witness of C8: the sample builder. -/
theorem reachable_bounds_witness :
    Reachable sample_hash sample_builder ∧
    (sample_builder.data_counter ≤ 0xcccccccc ∧ sample_builder.key_counter ≤ 0xcccccccc ∧
    sample_builder.data_size ≤ 0xffffffff ∧
    sample_builder.data_size = (sample_builder.data_len.take sample_builder.data_counter).sum ∧
    sample_builder.key_counter = (resident sample_builder).length) :=
  ⟨sample_reachable, reachable_bounds sample_hash sample_builder sample_reachable⟩

end Cdbw
